import Mathlib

/-!
Shallow embedding of the gearcrew pipeline-coordination layer:
the discovery queue (`src/tools/discovery_queue_tool.py`), the research log
(`src/tools/research_log_tool.py`), the source registry
(`src/tools/source_registry_tool.py`), the volume router and batch curation
(`src/flows/gear_collection_flow.py`) and the circuit breaker
(`src/utils/error_handling.py`).  SQLite tables are modelled as Lean lists of
row structures in rowid order; each `_run` branch becomes a pure function from
the table state (plus the call arguments) to a result and the new table state.
Timestamps are natural numbers supplied by the caller.
-/

namespace GearCrew

/-! ## Discovery queue (`discovery_queue_tool.py`) -/

/-- One row of the `discovery_queue` table. -/
structure QueueRow where
  discovery_id : String
  discovery_type : String
  discovery_data : String
  status : String
  priority : Int
  enqueued_at : Nat
  deriving DecidableEq, Repr

/-- Result of the `enqueue` action. -/
inductive EnqueueResult where
  | enqueued
  | duplicate (status : String)
  | missingId
  deriving DecidableEq, Repr

/-- The `SELECT ... WHERE discovery_id = ?` primary-key lookup. -/
def findRow (q : List QueueRow) (id : String) : Option QueueRow :=
  q.find? (fun r => r.discovery_id = id)

/-- The `enqueue` branch of `DiscoveryQueueTool._run`: reject an empty id
(Python falsiness of `disc_id`), reject a duplicate id in any status, otherwise
insert a fresh row with status `pending`.  `priority or 5` in Python maps
`none` and `0` to the default `5`. -/
def enqueue (q : List QueueRow) (id ty data : String) (prio : Option Int)
    (now : Nat) : EnqueueResult × List QueueRow :=
  if id = "" then (.missingId, q)
  else
    match findRow q id with
    | some r => (.duplicate r.status, q)
    | none =>
        let p : Int := match prio with
          | none => 5
          | some p0 => if p0 = 0 then 5 else p0
        (.enqueued, q ++ [⟨id, ty, data, "pending", p, now⟩])

/-- The rows with `status = 'pending'`. -/
def pendingRows (q : List QueueRow) : List QueueRow :=
  q.filter (fun r => r.status = "pending")

/-- Serving order `ORDER BY priority DESC, enqueued_at ASC`: `better a b`
holds when row `a` sorts strictly before row `b`. -/
def better (a b : QueueRow) : Bool :=
  b.priority < a.priority ∨ (a.priority = b.priority ∧ a.enqueued_at < b.enqueued_at)

/-- Selection `ORDER BY priority DESC, enqueued_at ASC LIMIT 1` over a row list, keeping
the earliest row on full ties (SQLite scans in rowid order). -/
def pickBest : List QueueRow → Option QueueRow
  | [] => none
  | r :: rs => some (rs.foldl (fun acc x => if better x acc then x else acc) r)

/-- The `UPDATE discovery_queue SET status = 'researching' ... WHERE
discovery_id = ?` statement of the dequeue branch. -/
def markResearching (q : List QueueRow) (id : String) : List QueueRow :=
  q.map (fun r => if r.discovery_id = id then { r with status := "researching" } else r)

/-- The `dequeue` branch of `DiscoveryQueueTool._run`: select the top pending
row, mark it `researching`, and return it; `none` models the
`EMPTY: No pending discoveries in queue` reply. -/
def dequeue (q : List QueueRow) : Option QueueRow × List QueueRow :=
  match pickBest (pendingRows q) with
  | none => (none, q)
  | some r => (some r, markResearching q r.discovery_id)

/-! ## Volume router (`gear_collection_flow.py`, `route_by_volume`) -/

/-- The three labels `route_by_volume` can return. -/
inductive Route where
  | batch_process
  | normal_process
  | idle
  deriving DecidableEq, Repr

/-- The router `GearCollectionFlow.route_by_volume` as a function of the filtered count. -/
def route_by_volume (count : Nat) : Route :=
  if count > 50 then .batch_process
  else if count > 0 then .normal_process
  else .idle

/-- Well-formedness maintained by the `discovery_id TEXT PRIMARY KEY` schema:
ids are pairwise distinct across the table. -/
def queueWf (q : List QueueRow) : Prop :=
  (q.map (fun r => r.discovery_id)).Nodup

instance (q : List QueueRow) : Decidable (queueWf q) := by
  unfold queueWf
  infer_instance

/-- Concrete queue used to witness the enqueue claim. -/
def qC2 : List QueueRow := [⟨"a", "product", "d0", "researching", 9, 0⟩]

/-! ### Dequeue under concurrency

The dequeue branch issues two separate SQL statements: the `SELECT ... LIMIT 1`
and then the `UPDATE ... SET status = 'researching'`; each statement commits on
its own, so the statements of two concurrent dequeue calls on separate
connections may interleave.  A dequeuer is modelled by a two-step program over
the shared table, built from exactly the two halves `dequeue` composes. -/

/-- Local state of one in-flight dequeue call: `pc = 0` before its `SELECT`,
`pc = 1` before its `UPDATE`, `pc = 2` after it returned `sel` to its caller. -/
structure Dequeuer where
  pc : Nat
  sel : Option QueueRow
  deriving DecidableEq, Repr

/-- A dequeue call that has not started yet. -/
def freshDequeuer : Dequeuer := ⟨0, none⟩

/-- Execute the next statement of one dequeue call against the shared table. -/
def dequeuerStep (q : List QueueRow) (a : Dequeuer) : List QueueRow × Dequeuer :=
  match a.pc with
  | 0 => (q, ⟨1, pickBest (pendingRows q)⟩)
  | 1 =>
      match a.sel with
      | some r => (markResearching q r.discovery_id, ⟨2, a.sel⟩)
      | none => (q, ⟨2, none⟩)
  | _ => (q, a)

/-- Shared table plus two in-flight dequeue calls. -/
structure TwoDequeuers where
  queue : List QueueRow
  d1 : Dequeuer
  d2 : Dequeuer
  deriving DecidableEq, Repr

/-- Run one statement of dequeuer 1 (`true`) or dequeuer 2 (`false`). -/
def stepSystem (s : TwoDequeuers) (who : Bool) : TwoDequeuers :=
  if who then
    let p := dequeuerStep s.queue s.d1
    ⟨p.1, p.2, s.d2⟩
  else
    let p := dequeuerStep s.queue s.d2
    ⟨p.1, s.d1, p.2⟩

/-- Run an interleaving schedule of the two dequeuers' statements. -/
def runSchedule (s : TwoDequeuers) : List Bool → TwoDequeuers
  | [] => s
  | w :: ws => runSchedule (stepSystem s w) ws

/-- Runs `n` back-to-back (sequential) dequeue calls: the claimed rows in
call order, and the final table. -/
def dequeueN : Nat → List QueueRow → List QueueRow × List QueueRow
  | 0, q => ([], q)
  | n + 1, q =>
      match dequeue q with
      | (none, q1) => ([], q1)
      | (some r, q1) =>
          let rest := dequeueN n q1
          (r :: rest.1, rest.2)

/-- Concrete two-item pending queue used for the concurrency claim. -/
def qC9 : List QueueRow :=
  [⟨"a", "product", "dt", "pending", 7, 0⟩, ⟨"b", "product", "dt", "pending", 5, 1⟩]

/-! ## Circuit breaker (`error_handling.py`, `CircuitBreaker`) -/

/-- The fields of a `CircuitBreaker` instance; times are whole seconds. -/
structure Breaker where
  failure_threshold : Nat
  recovery_timeout : Nat
  state : String
  failure_count : Nat
  success_count : Nat
  last_failure_time : Option Nat
  deriving DecidableEq, Repr

/-- The constructor `CircuitBreaker.__init__`: starts CLOSED with zeroed counters. -/
def mkBreaker (ft rt : Nat) : Breaker := ⟨ft, rt, "closed", 0, 0, none⟩

/-- The guard `_should_allow_request`; note it is the place that moves OPEN to HALF_OPEN
once `now - last_failure_time` strictly exceeds the recovery timeout. -/
def shouldAllowRequest (cb : Breaker) (now : Nat) : Bool × Breaker :=
  if cb.state = "closed" then (true, cb)
  else if cb.state = "open" then
    match cb.last_failure_time with
    | some t =>
        if cb.recovery_timeout < now - t then (true, { cb with state := "half_open" })
        else (false, cb)
    | none => (false, cb)
  else (true, cb)

/-- Success hook `_on_success`: counters move only in the HALF_OPEN state. -/
def onSuccess (cb : Breaker) : Breaker :=
  if cb.state = "half_open" then
    if cb.success_count + 1 ≥ 2 then
      { cb with state := "closed", failure_count := 0, success_count := 0 }
    else { cb with success_count := cb.success_count + 1 }
  else cb

/-- Failure hook `_on_failure`: count the failure, stamp the time, reset successes, and
open the circuit once the count reaches the threshold. -/
def onFailure (cb : Breaker) (now : Nat) : Breaker :=
  let cb1 : Breaker := { cb with failure_count := cb.failure_count + 1,
                                 last_failure_time := some now, success_count := 0 }
  if cb1.failure_count ≥ cb1.failure_threshold then { cb1 with state := "open" } else cb1

/-- What the caller of a protected function observes. -/
inductive CallResult where
  | ok
  | raised
  | rejected
  deriving DecidableEq, Repr

/-- The wrapper `CircuitBreaker.protect` builds around a function: the middle
Bool records whether the wrapped function was invoked at all, and `succeeds`
says whether that invocation would return or raise. -/
def protectedCall (cb : Breaker) (now : Nat) (succeeds : Bool) :
    CallResult × Bool × Breaker :=
  let p := shouldAllowRequest cb now
  if p.1 then
    if succeeds then (.ok, true, onSuccess p.2)
    else (.raised, true, onFailure p.2 now)
  else (.rejected, false, p.2)

/-- A sequence of protected calls; each event is (time, call succeeds). -/
def runCalls (cb : Breaker) : List (Nat × Bool) → Breaker
  | [] => cb
  | e :: es => runCalls (protectedCall cb e.1 e.2).2.2 es

/-- Number of failing calls in an event list. -/
def countFails (evs : List (Nat × Bool)) : Nat :=
  (evs.filter (fun e => e.2 = false)).length

/-! ## Research log (`research_log_tool.py`) -/

/-- One row of `research_sessions`. -/
structure SessionRow where
  research_id : String
  discovery_id : String
  status : String
  completeness_score : Option ℚ
  overall_confidence : Option String
  deriving DecidableEq, Repr

/-- One row of `research_steps` (the autoincrement step id is the list
position). -/
structure StepRow where
  research_id : String
  discovery_id : String
  source_url : String
  source_type : String
  data_found : Option (List String)
  confidence : String
  notes : Option String
  deriving DecidableEq, Repr

/-- The two tables of the research-log database. -/
structure ResearchLog where
  sessions : List SessionRow
  steps : List StepRow
  deriving DecidableEq, Repr

/-- Result of the `log` action. -/
inductive LogResult where
  | logged
  | missingArgs
  deriving DecidableEq, Repr

/-- The `log` branch of `ResearchLogTool._run`: requires the three ids, creates
the session row when missing (status `in_progress`), and appends the step
unconditionally — the fetched session status is never inspected.  Python
falsiness maps an empty `data_found` list to NULL and empty `source_type` /
`confidence` strings to their defaults. -/
def logAction (db : ResearchLog) (research_id discovery_id source_url : String)
    (source_type : Option String) (data_found : Option (List String))
    (confidence : Option String) (notes : Option String) : LogResult × ResearchLog :=
  if research_id = "" ∨ discovery_id = "" ∨ source_url = "" then (.missingArgs, db)
  else
    let sessions1 :=
      if (db.sessions.find? (fun s => s.research_id = research_id)).isSome then db.sessions
      else db.sessions ++ [⟨research_id, discovery_id, "in_progress", none, none⟩]
    let stored_data : Option (List String) :=
      match data_found with
      | some l => if l = [] then none else some l
      | none => none
    let stored_type : String :=
      match source_type with
      | some s => if s = "" then "other" else s
      | none => "other"
    let stored_conf : String :=
      match confidence with
      | some c => if c = "" then "uncertain" else c
      | none => "uncertain"
    (.logged, ⟨sessions1, db.steps ++
      [⟨research_id, discovery_id, source_url, stored_type, stored_data, stored_conf, notes⟩]⟩)

/-- The fixed required-field set of the `complete` branch. -/
def required_fields : List String :=
  ["name", "brand", "weight", "price", "productUrl", "imageUrl", "type"]

/-- The set `all_fields`: union of the `data_found` lists across the steps (collected
into a Python set; list membership is what matters below). -/
def unionFields (steps : List StepRow) : List String :=
  steps.foldl (fun acc s =>
    match s.data_found with
    | some l => acc ++ l
    | none => acc) []

/-- Result of the `complete` action. -/
inductive CompleteResult where
  | completed (score : ℚ) (confidence : String)
  | noSteps
  | missingArgs
  deriving DecidableEq, Repr

/-- The `complete` branch of `ResearchLogTool._run`: with no step rows it
reports the not-found error; otherwise it computes the completeness ratio over
`required_fields`, takes the best confidence seen, and updates the session row
to `completed` with both values persisted. -/
def completeAction (db : ResearchLog) (research_id : String) :
    CompleteResult × ResearchLog :=
  if research_id = "" then (.missingArgs, db)
  else
    let stepsFor := db.steps.filter (fun s => s.research_id = research_id)
    if stepsFor = [] then (.noSteps, db)
    else
      let all_fields := unionFields stepsFor
      let completeness : ℚ :=
        ((required_fields.filter (fun f => f ∈ all_fields)).length : ℚ) /
          (required_fields.length : ℚ)
      let confs := stepsFor.map (fun s => s.confidence)
      let overall : String :=
        if "verified" ∈ confs then "verified"
        else if "corroborated" ∈ confs then "corroborated"
        else if "reported" ∈ confs then "reported"
        else "uncertain"
      (.completed completeness overall,
        ⟨db.sessions.map (fun s => if s.research_id = research_id then
            ⟨s.research_id, s.discovery_id, "completed", some completeness, some overall⟩
          else s), db.steps⟩)

/-- Trust tiers in the fixed total order
verified > corroborated > reported > uncertain. -/
def confLevel : String → Nat
  | "verified" => 3
  | "corroborated" => 2
  | "reported" => 1
  | _ => 0

/-- Concrete log with a completed session, used for the append-after-complete
claim. -/
def dbC6 : ResearchLog :=
  ⟨[⟨"r1", "d1", "completed", some 1, some "verified"⟩], []⟩

/-- Concrete log used to witness the completion-scoring claim. -/
def dbC3 : ResearchLog :=
  ⟨[⟨"r2", "d2", "in_progress", none, none⟩],
   [⟨"r2", "d2", "https://maker/p", "manufacturer", some ["name", "weight", "price"],
      "verified", none⟩,
    ⟨"r2", "d2", "https://shop/p", "retailer", some ["price", "productUrl"],
      "reported", none⟩,
    ⟨"other", "d9", "https://x", "blog", some ["imageUrl"], "corroborated", none⟩]⟩

/-! ## Source registry (`source_registry_tool.py`) -/

/-- One row of `visited_sources`. -/
structure SourceRow where
  url : String
  source_type : Option String
  visited_at : Nat
  items_discovered : Int
  last_scanned : Nat
  scan_count : Int
  status : String
  deriving DecidableEq, Repr

/-- Result of the `add` action. -/
inductive AddResult where
  | registered
  | updated (scan_count : Int)
  | missingUrl
  deriving DecidableEq, Repr

/-- The `add` branch of `SourceRegistryTool._run`.  For a known url:
`scan_count + 1`, `items_discovered` accumulated, `last_scanned` restamped and
`source_type = COALESCE(?, source_type)` — the parameter comes FIRST, so a
non-NULL argument replaces the stored kind and the stored kind survives only
when the call passes none.  For an unknown url: fresh row with
`scan_count = 1` (and Python falsiness mapping an empty kind to `unknown`). -/
def addAction (db : List SourceRow) (url : String) (source_type : Option String)
    (items_found : Option Int) (now : Nat) : AddResult × List SourceRow :=
  if url = "" then (.missingUrl, db)
  else
    match db.find? (fun r => r.url = url) with
    | some r =>
        (.updated (r.scan_count + 1),
          db.map (fun x => if x.url = url then
            ⟨x.url, (match source_type with | some s => some s | none => x.source_type),
              x.visited_at, x.items_discovered + items_found.getD 0,
              now, r.scan_count + 1, x.status⟩
          else x))
    | none =>
        (.registered,
          db ++ [⟨url,
            some (match source_type with
                  | some s => if s = "" then "unknown" else s
                  | none => "unknown"),
            now, items_found.getD 0, now, 1, "completed"⟩])

/-- Well-formedness maintained by the `url TEXT PRIMARY KEY` schema. -/
def registryWf (db : List SourceRow) : Prop :=
  (db.map (fun r => r.url)).Nodup

instance (db : List SourceRow) : Decidable (registryWf db) := by
  unfold registryWf
  infer_instance

/-- Concrete registry with a previously-set non-empty kind. -/
def dbC7 : List SourceRow := [⟨"https://u", some "youtube", 0, 5, 0, 1, "completed"⟩]

/-! ## Batch curation (`gear_collection_flow.py`, `batch_curate`) -/

/-- Chunking `[items[i:i+batch_size] for i in range(0, len(items), batch_size)]`. -/
def chunksOf {α : Type} (bs : Nat) : List α → List (List α)
  | [] => []
  | x :: xs => ((x :: xs).take bs) :: chunksOf bs (xs.drop (bs - 1))
  termination_by l => l.length
  decreasing_by
    simp only [List.length_drop, List.length_cons]
    omega

/-- The body of the `for i, batch in enumerate(batches)` loop: `f` models one
`curators.kickoff` round, `Except.error` a raised exception, which propagates
out of the loop (there is no try/except around it).  The second component
records the chunks on which `f` was actually invoked. -/
def batchRun {α β ε : Type} (f : List α → Except ε β) :
    List (List α) → (Except ε (List β)) × List (List α)
  | [] => (.ok [], [])
  | c :: cs =>
      match f c with
      | .error e => (.error e, [c])
      | .ok r =>
          let rest := batchRun f cs
          match rest.1 with
          | .ok rs => (.ok (r :: rs), c :: rest.2)
          | .error e => (.error e, c :: rest.2)

/-- The flow step `GearCollectionFlow.batch_curate` with the curator call abstracted: split
into batches of 10 and run them sequentially. -/
def batch_curate {α β ε : Type} (f : List α → Except ε β) (items : List α) :
    (Except ε (List β)) × List (List α) :=
  batchRun f (chunksOf 10 items)

/-- A curator stand-in that raises on any chunk containing item 0. -/
def failOnZero : List Nat → Except Unit (List Nat) :=
  fun c => if 0 ∈ c then .error () else .ok c

/-- Twelve items, so two batches of sizes 10 and 2. -/
def itemsC8 : List Nat := [0, 1, 2, 3, 4, 5, 6, 7, 8, 9, 10, 11]

end GearCrew

namespace GearCrew

/-- The serving order is irreflexive. -/
theorem better_irrefl (r : QueueRow) : better r r = false := by
  simp [better]

/-- The complement of the serving order is transitive. -/
theorem better_notrans (x y z : QueueRow) (h1 : better x y = false)
    (h2 : better y z = false) : better x z = false := by
  simp only [better, decide_eq_false_iff_not, not_or, not_and, not_lt] at h1 h2 ⊢
  constructor
  · omega
  · intro hp
    omega

/-- If `x` sorts strictly before `r` but not before `res`, then `r` does not
sort strictly before `res`. -/
theorem better_cross (x r res : QueueRow) (h1 : better x r = true)
    (h2 : better x res = false) : better r res = false := by
  simp only [better, decide_eq_true_eq, decide_eq_false_iff_not, not_or, not_and,
    not_lt] at h1 h2 ⊢
  constructor
  · omega
  · intro hp
    omega

/-- The fold inside `pickBest` returns an element of the scanned rows that no
scanned row sorts strictly before. -/
theorem pickBest_foldl_spec (l : List QueueRow) (r : QueueRow) :
    (l.foldl (fun acc x => if better x acc then x else acc) r = r ∨
      l.foldl (fun acc x => if better x acc then x else acc) r ∈ l) ∧
    better r (l.foldl (fun acc x => if better x acc then x else acc) r) = false ∧
    ∀ y ∈ l, better y (l.foldl (fun acc x => if better x acc then x else acc) r) = false := by
  induction l generalizing r with
  | nil => exact ⟨Or.inl rfl, better_irrefl r, by simp⟩
  | cons x xs ih =>
      simp only [List.foldl_cons]
      by_cases hx : better x r = true
      · rw [if_pos hx]
        obtain ⟨hmem, hacc, hall⟩ := ih x
        refine ⟨?_, ?_, ?_⟩
        · rcases hmem with h | h
          · exact Or.inr (by simp [h])
          · exact Or.inr (List.mem_cons_of_mem _ h)
        · exact better_cross x r _ hx hacc
        · intro y hy
          rcases List.mem_cons.mp hy with rfl | hy'
          · exact hacc
          · exact hall y hy'
      · rw [if_neg hx]
        obtain ⟨hmem, hacc, hall⟩ := ih r
        refine ⟨?_, hacc, ?_⟩
        · rcases hmem with h | h
          · exact Or.inl h
          · exact Or.inr (List.mem_cons_of_mem _ h)
        · intro y hy
          rcases List.mem_cons.mp hy with rfl | hy'
          · exact better_notrans y r _ (Bool.eq_false_iff.mpr (fun hc => hx hc)) hacc
          · exact hall y hy'

/-- Soundness of `pickBest`: it returns a row of its input that no input row sorts strictly
before. -/
theorem pickBest_spec (l : List QueueRow) (r : QueueRow) (h : pickBest l = some r) :
    r ∈ l ∧ ∀ y ∈ l, better y r = false := by
  cases l with
  | nil => simp [pickBest] at h
  | cons a as =>
      simp only [pickBest, Option.some.injEq] at h
      obtain ⟨hmem, hacc, hall⟩ := pickBest_foldl_spec as a
      subst h
      refine ⟨?_, ?_⟩
      · rcases hmem with h | h
        · rw [h]; exact List.mem_cons_self a as
        · exact List.mem_cons_of_mem _ h
      · intro y hy
        rcases List.mem_cons.mp hy with rfl | hy'
        · exact hacc
        · exact hall y hy'

/-- Totality of `pickBest`: it returns a row whenever its input is nonempty. -/
theorem pickBest_ne_none (l : List QueueRow) (h : l ≠ []) :
    ∃ r, pickBest l = some r := by
  cases l with
  | nil => exact absurd rfl h
  | cons a as => exact ⟨_, rfl⟩

/-- Spelling out the complement of the serving order. -/
theorem not_better_iff (y r : QueueRow) :
    better y r = false ↔
      y.priority ≤ r.priority ∧ (y.priority = r.priority → r.enqueued_at ≤ y.enqueued_at) := by
  simp only [better, decide_eq_false_iff_not, not_or, not_and, not_lt]

/-- Membership in `pendingRows`. -/
theorem mem_pendingRows (q : List QueueRow) (r : QueueRow) :
    r ∈ pendingRows q ↔ r ∈ q ∧ r.status = "pending" := by
  simp [pendingRows]

/-- Marking an id that occurs nowhere in the rows is a no-op. -/
theorem markResearching_of_not_mem (l : List QueueRow) (id : String)
    (h : ∀ x ∈ l, x.discovery_id ≠ id) : markResearching l id = l := by
  induction l with
  | nil => rfl
  | cons a as ih =>
      have ha : a.discovery_id ≠ id := h a (List.mem_cons_self a as)
      simp only [markResearching, List.map_cons, if_neg ha]
      have := ih (fun x hx => h x (List.mem_cons_of_mem _ hx))
      simp only [markResearching] at this
      rw [this]

/-- C1: with at least one pending item, `dequeue` returns a pending row of
maximal priority (earliest `enqueued_at` among that priority) and flips exactly
that row to `researching`; with no pending item it reports empty and leaves the
queue unchanged. -/
theorem C1_dequeue_spec (q : List QueueRow) (hwf : queueWf q) :
    (pendingRows q = [] → dequeue q = (none, q)) ∧
    (pendingRows q ≠ [] →
      ∃ r l1 l2, q = l1 ++ r :: l2 ∧
        dequeue q = (some r, l1 ++ { r with status := "researching" } :: l2) ∧
        r.status = "pending" ∧
        ∀ x ∈ pendingRows q,
          x.priority ≤ r.priority ∧
          (x.priority = r.priority → r.enqueued_at ≤ x.enqueued_at)) := by
  constructor
  · intro hempty
    simp [dequeue, hempty, pickBest]
  · intro hne
    obtain ⟨r, hr⟩ := pickBest_ne_none _ hne
    obtain ⟨hrmem, hbest⟩ := pickBest_spec _ _ hr
    obtain ⟨hrq, hrpending⟩ := (mem_pendingRows q r).mp hrmem
    obtain ⟨l1, l2, rfl⟩ := List.append_of_mem hrq
    have hids : ((l1 ++ r :: l2).map (fun x => x.discovery_id)).Nodup := hwf
    rw [List.map_append, List.map_cons, List.nodup_append] at hids
    obtain ⟨h1, h2, hdisj⟩ := hids
    have hid1 : ∀ x ∈ l1, x.discovery_id ≠ r.discovery_id := by
      intro x hx hcontra
      exact hdisj (List.mem_map_of_mem _ hx) (by simp [hcontra])
    have hid2 : ∀ x ∈ l2, x.discovery_id ≠ r.discovery_id := by
      intro x hx hcontra
      have := (List.nodup_cons.mp h2).1
      exact this (hcontra ▸ List.mem_map_of_mem _ hx)
    refine ⟨r, l1, l2, rfl, ?_, hrpending, ?_⟩
    · simp only [dequeue, hr, markResearching, List.map_append, List.map_cons]
      have e1 : l1.map (fun x => if x.discovery_id = r.discovery_id then
          { x with status := "researching" } else x) = l1 := by
        have := markResearching_of_not_mem l1 r.discovery_id hid1
        simpa [markResearching] using this
      have e2 : l2.map (fun x => if x.discovery_id = r.discovery_id then
          { x with status := "researching" } else x) = l2 := by
        have := markResearching_of_not_mem l2 r.discovery_id hid2
        simpa [markResearching] using this
      rw [e1, e2]
      simp
    · intro x hx
      exact (not_better_iff x r).mp (hbest x hx)

/-- Witness for C1 on a concrete four-row queue: a pending tie at priority 8 is
broken by earliest enqueue time, and the empty case on the claimed-only queue. -/
theorem C1_dequeue_spec_witness :
    (queueWf [⟨"a", "product", "dt", "researching", 9, 0⟩,
              ⟨"b", "product", "dt", "pending", 8, 5⟩,
              ⟨"c", "product", "dt", "pending", 8, 3⟩,
              ⟨"d", "product", "dt", "pending", 2, 1⟩]) ∧
    ((pendingRows [⟨"a", "product", "dt", "researching", 9, 0⟩,
              ⟨"b", "product", "dt", "pending", 8, 5⟩,
              ⟨"c", "product", "dt", "pending", 8, 3⟩,
              ⟨"d", "product", "dt", "pending", 2, 1⟩] = [] →
        dequeue [⟨"a", "product", "dt", "researching", 9, 0⟩,
              ⟨"b", "product", "dt", "pending", 8, 5⟩,
              ⟨"c", "product", "dt", "pending", 8, 3⟩,
              ⟨"d", "product", "dt", "pending", 2, 1⟩] =
          (none, [⟨"a", "product", "dt", "researching", 9, 0⟩,
              ⟨"b", "product", "dt", "pending", 8, 5⟩,
              ⟨"c", "product", "dt", "pending", 8, 3⟩,
              ⟨"d", "product", "dt", "pending", 2, 1⟩])) ∧
      (pendingRows [⟨"a", "product", "dt", "researching", 9, 0⟩,
              ⟨"b", "product", "dt", "pending", 8, 5⟩,
              ⟨"c", "product", "dt", "pending", 8, 3⟩,
              ⟨"d", "product", "dt", "pending", 2, 1⟩] ≠ [] →
        ∃ r l1 l2, [⟨"a", "product", "dt", "researching", 9, 0⟩,
              ⟨"b", "product", "dt", "pending", 8, 5⟩,
              ⟨"c", "product", "dt", "pending", 8, 3⟩,
              ⟨"d", "product", "dt", "pending", 2, 1⟩] = l1 ++ r :: l2 ∧
          dequeue [⟨"a", "product", "dt", "researching", 9, 0⟩,
              ⟨"b", "product", "dt", "pending", 8, 5⟩,
              ⟨"c", "product", "dt", "pending", 8, 3⟩,
              ⟨"d", "product", "dt", "pending", 2, 1⟩] =
            (some r, l1 ++ { r with status := "researching" } :: l2) ∧
          r.status = "pending" ∧
          ∀ x ∈ pendingRows [⟨"a", "product", "dt", "researching", 9, 0⟩,
              ⟨"b", "product", "dt", "pending", 8, 5⟩,
              ⟨"c", "product", "dt", "pending", 8, 3⟩,
              ⟨"d", "product", "dt", "pending", 2, 1⟩],
            x.priority ≤ r.priority ∧
            (x.priority = r.priority → r.enqueued_at ≤ x.enqueued_at))) :=
  ⟨by decide, C1_dequeue_spec _ (by decide)⟩

/-- A primary-key miss means no row of the table carries the id. -/
theorem findRow_eq_none_iff (q : List QueueRow) (id : String) :
    findRow q id = none ↔ ∀ r ∈ q, r.discovery_id ≠ id := by
  simp [findRow, List.find?_eq_none]

/-- Searching past rows that miss the id continues in the suffix. -/
theorem findRow_append (q l : List QueueRow) (id : String) (h : findRow q id = none) :
    findRow (q ++ l) id = findRow l id := by
  induction q with
  | nil => rfl
  | cons a as ih =>
      simp only [findRow, List.cons_append, List.find?_cons] at h ⊢
      cases hpa : decide (a.discovery_id = id) with
      | true => rw [hpa] at h; exact absurd h (by simp)
      | false =>
          rw [hpa] at h
          exact ih h

/-- C2: enqueueing an id already present in the queue (in any status) reports a
duplicate and leaves the table untouched; enqueueing a fresh id appends exactly
one `pending` row, and a second enqueue of the same id reports a duplicate and
changes nothing, so the id is stored exactly once. -/
theorem C2_enqueue_dedup (q : List QueueRow) (id ty data ty2 data2 : String)
    (prio prio2 : Option Int) (t1 t2 : Nat)
    (hid : id ≠ "") (hfresh : findRow q id = none) :
    (∀ (q0 : List QueueRow) (ty0 data0 : String) (prio0 : Option Int) (t0 : Nat) (r : QueueRow),
        findRow q0 id = some r →
        enqueue q0 id ty0 data0 prio0 t0 = (.duplicate r.status, q0)) ∧
    ∃ row : QueueRow,
      enqueue q id ty data prio t1 = (.enqueued, q ++ [row]) ∧
      row.discovery_id = id ∧ row.status = "pending" ∧
      ((q ++ [row]).filter (fun r => r.discovery_id = id)).length = 1 ∧
      enqueue (q ++ [row]) id ty2 data2 prio2 t2 = (.duplicate "pending", q ++ [row]) := by
  constructor
  · intro q0 ty0 data0 prio0 t0 r hdup
    simp [enqueue, hid, hdup]
  · refine ⟨⟨id, ty, data, "pending",
      (match prio with | none => 5 | some p0 => if p0 = 0 then 5 else p0), t1⟩, ?_, rfl, rfl, ?_, ?_⟩
    · simp [enqueue, hid, hfresh]
    · have hnil : q.filter (fun r => r.discovery_id = id) = [] := by
        rw [List.filter_eq_nil_iff]
        intro r hr
        simpa using (findRow_eq_none_iff q id).mp hfresh r hr
      rw [List.filter_append, hnil]
      simp
    · have hfound : findRow (q ++ [⟨id, ty, data, "pending",
          (match prio with | none => 5 | some p0 => if p0 = 0 then 5 else p0), t1⟩]) id =
          some ⟨id, ty, data, "pending",
          (match prio with | none => 5 | some p0 => if p0 = 0 then 5 else p0), t1⟩ := by
        rw [findRow_append q _ id hfresh]
        simp [findRow]
      simp [enqueue, hid, hfound]

/-- Witness for C2: enqueueing the fresh id `b` onto `qC2` and then enqueueing
it again. -/
theorem C2_enqueue_dedup_witness :
    ("b" ≠ "" ∧ findRow qC2 "b" = none) ∧
    ((∀ (q0 : List QueueRow) (ty0 data0 : String) (prio0 : Option Int) (t0 : Nat) (r : QueueRow),
        findRow q0 "b" = some r →
        enqueue q0 "b" ty0 data0 prio0 t0 = (.duplicate r.status, q0)) ∧
    ∃ row : QueueRow,
      enqueue qC2 "b" "product" "d" (some 7) 1 = (.enqueued, qC2 ++ [row]) ∧
      row.discovery_id = "b" ∧ row.status = "pending" ∧
      ((qC2 ++ [row]).filter (fun r => r.discovery_id = "b")).length = 1 ∧
      enqueue (qC2 ++ [row]) "b" "product" "d2" none 2 = (.duplicate "pending", qC2 ++ [row])) :=
  ⟨⟨by decide, by decide⟩,
   C2_enqueue_dedup qC2 "b" "product" "d" "product" "d2" (some 7) none 1 2 (by decide) (by decide)⟩

/-- Marking rows never changes the stored ids. -/
theorem markResearching_map_id (q : List QueueRow) (i : String) :
    (markResearching q i).map (fun r => r.discovery_id) = q.map (fun r => r.discovery_id) := by
  induction q with
  | nil => rfl
  | cons a as ih =>
      simp only [markResearching, List.map_cons] at ih ⊢
      by_cases hid : a.discovery_id = i
      · rw [if_pos hid, ih]
      · rw [if_neg hid, ih]

/-- After the `UPDATE` of a dequeue, the pending rows are the previous pending
rows whose id differs from the marked one. -/
theorem pendingRows_markResearching (q : List QueueRow) (i : String) :
    pendingRows (markResearching q i) =
      (pendingRows q).filter (fun r => r.discovery_id ≠ i) := by
  induction q with
  | nil => rfl
  | cons a as ih =>
      simp only [markResearching, pendingRows, List.map_cons, List.filter_cons] at ih ⊢
      by_cases hid : a.discovery_id = i
      · rw [if_pos hid]
        by_cases hst : a.status = "pending"
        · simp [hst, hid, ih]
        · simp [hst, hid, ih]
      · rw [if_neg hid]
        by_cases hst : a.status = "pending"
        · simp [hst, hid, ih]
        · simp [hst, hid, ih]

/-- A successful dequeue selected its row by the serving order and performed
exactly the marking update. -/
theorem dequeue_eq_some (q q' : List QueueRow) (r : QueueRow)
    (h : dequeue q = (some r, q')) :
    pickBest (pendingRows q) = some r ∧ q' = markResearching q r.discovery_id := by
  unfold dequeue at h
  cases hp : pickBest (pendingRows q) with
  | none => rw [hp] at h; simp at h
  | some s =>
      rw [hp] at h
      simp only [Prod.mk.injEq, Option.some.injEq] at h
      obtain ⟨rfl, rfl⟩ := h
      exact ⟨rfl, rfl⟩

/-- With a pending row available, dequeue succeeds and performs the marking
update on the row it returns. -/
theorem dequeue_nonempty (q : List QueueRow) (h : pendingRows q ≠ []) :
    ∃ r, r ∈ pendingRows q ∧ dequeue q = (some r, markResearching q r.discovery_id) := by
  obtain ⟨r, hr⟩ := pickBest_ne_none _ h
  refine ⟨r, (pickBest_spec _ _ hr).1, ?_⟩
  unfold dequeue
  rw [hr]

/-- Removing the unique occurrence of an id from a duplicate-free list drops
its length by exactly one. -/
theorem length_filter_ne_of_nodup {α β : Type} [DecidableEq β] (f : α → β)
    (l : List α) (a : α) (hnd : (l.map f).Nodup) (ha : a ∈ l) :
    (l.filter (fun x => f x ≠ f a)).length + 1 = l.length := by
  induction l with
  | nil => cases ha
  | cons b bs ih =>
      simp only [List.map_cons, List.nodup_cons] at hnd
      obtain ⟨hb, hnd'⟩ := hnd
      by_cases hab : f b = f a
      · have hkeep : bs.filter (fun x => f x ≠ f a) = bs := by
          rw [List.filter_eq_self]
          intro x hx
          have hxne : f x ≠ f a := by
            intro hc
            exact hb (by rw [hab, ← hc]; exact List.mem_map_of_mem f hx)
          simpa using hxne
        rw [List.filter_cons, if_neg (by simp [hab]), hkeep]
        simp
      · have ha' : a ∈ bs := by
          rcases List.mem_cons.mp ha with h | h
          · subst h; exact absurd rfl hab
          · exact h
        have hkeephead : (decide (f b ≠ f a)) = true := by simpa using hab
        have hih := ih hnd' ha'
        simp only [List.filter_cons, hkeephead, if_pos, List.length_cons]
        omega

/-- Every row a run of sequential dequeues returns was pending at the start of
the run. -/
theorem dequeueN_returned_pending (n : Nat) (q : List QueueRow) :
    ∀ x ∈ (dequeueN n q).1, x ∈ pendingRows q := by
  induction n generalizing q with
  | zero => simp [dequeueN]
  | succ n ih =>
      intro x hx
      rcases hdq : dequeue q with ⟨opt, q1⟩
      cases opt with
      | none => simp [dequeueN, hdq] at hx
      | some r =>
          obtain ⟨hpick, rfl⟩ := dequeue_eq_some q q1 r hdq
          simp only [dequeueN, hdq] at hx
          rcases List.mem_cons.mp hx with rfl | hx'
          · exact (pickBest_spec _ _ hpick).1
          · have := ih _ x hx'
            rw [pendingRows_markResearching] at this
            exact (List.mem_filter.mp this).1

/-- C9 (amended): sequential dequeues hand out pairwise distinct ids.  Run
atomically one after another, `n` dequeue calls on a well-formed queue with at
least `n` pending rows return exactly `n` rows with no repeated id. -/
theorem C9_sequential_dequeue_distinct (n : Nat) (q : List QueueRow)
    (hwf : queueWf q) (hn : n ≤ (pendingRows q).length) :
    (dequeueN n q).1.length = n ∧
    ((dequeueN n q).1.map (fun r => r.discovery_id)).Nodup := by
  induction n generalizing q with
  | zero => simp [dequeueN]
  | succ n ih =>
      have hne : pendingRows q ≠ [] := by
        intro h
        rw [h] at hn
        simp at hn
      obtain ⟨r, hrmem, hdq⟩ := dequeue_nonempty q hne
      have hwf1 : queueWf (markResearching q r.discovery_id) := by
        unfold queueWf
        rw [markResearching_map_id]
        exact hwf
      have hpendnd : ((pendingRows q).map (fun x => x.discovery_id)).Nodup := by
        unfold queueWf at hwf
        exact ((List.filter_sublist q).map (fun x => x.discovery_id)).nodup hwf
      have hdrop : ((pendingRows q).filter
          (fun x => x.discovery_id ≠ r.discovery_id)).length + 1 =
          (pendingRows q).length :=
        length_filter_ne_of_nodup (fun x => x.discovery_id) (pendingRows q) r hpendnd hrmem
      have hlen1 : n ≤ (pendingRows (markResearching q r.discovery_id)).length := by
        rw [pendingRows_markResearching]
        omega
      obtain ⟨hlen', hnd'⟩ := ih _ hwf1 hlen1
      have hnotmem : r.discovery_id ∉
          ((dequeueN n (markResearching q r.discovery_id)).1.map (fun x => x.discovery_id)) := by
        intro hmem
        obtain ⟨x, hxmem, hxid⟩ := List.mem_map.mp hmem
        have hxp := dequeueN_returned_pending n _ x hxmem
        rw [pendingRows_markResearching] at hxp
        have hxne : x.discovery_id ≠ r.discovery_id := by
          simpa using (List.mem_filter.mp hxp).2
        exact hxne hxid
      refine ⟨?_, ?_⟩
      · simp only [dequeueN, hdq, List.length_cons]
        omega
      · simp only [dequeueN, hdq, List.map_cons, List.nodup_cons]
        exact ⟨hnotmem, hnd'⟩

/-- Witness for the amended C9 at `n = 2` on the concrete queue `qC9`. -/
theorem C9_sequential_dequeue_distinct_witness :
    (queueWf qC9 ∧ 2 ≤ (pendingRows qC9).length) ∧
    ((dequeueN 2 qC9).1.length = 2 ∧
      ((dequeueN 2 qC9).1.map (fun r => r.discovery_id)).Nodup) :=
  ⟨⟨by decide, by decide⟩, C9_sequential_dequeue_distinct 2 qC9 (by decide) (by decide)⟩

/-- C9 counterexample: the `SELECT` and the claiming `UPDATE` are separate
statements, so the interleaving select-1, select-2, update-1, update-2 of two
concurrent dequeuers on a queue with two pending items hands the same item
`a` to both callers — the claim's "N distinct item ids with no repeats" fails
at N = 2. -/
theorem C9_concurrent_dequeue_cex :
    queueWf qC9 ∧ 2 ≤ (pendingRows qC9).length ∧
    (runSchedule ⟨qC9, freshDequeuer, freshDequeuer⟩ [true, false, true, false]).d1.sel =
      some ⟨"a", "product", "dt", "pending", 7, 0⟩ ∧
    (runSchedule ⟨qC9, freshDequeuer, freshDequeuer⟩ [true, false, true, false]).d2.sel =
      some ⟨"a", "product", "dt", "pending", 7, 0⟩ := by
  decide

/-- C4: the route step is a total deterministic function of the filtered item
count: `batch_process` above 50, `normal_process` for 1..50, `idle` at 0, with
the stated boundary values. -/
theorem C4_route_total (N : Nat) :
    (50 < N → route_by_volume N = .batch_process) ∧
    (0 < N → N ≤ 50 → route_by_volume N = .normal_process) ∧
    (N = 0 → route_by_volume N = .idle) ∧
    route_by_volume 0 = .idle ∧ route_by_volume 25 = .normal_process ∧
    route_by_volume 50 = .normal_process ∧ route_by_volume 51 = .batch_process := by
  refine ⟨fun h => ?_, fun h1 h2 => ?_, fun h => ?_, by decide, by decide, by decide, by decide⟩
  · simp [route_by_volume, h]
  · simp [route_by_volume, h1, Nat.not_lt.mpr h2]
  · simp [route_by_volume, h]

/-- Witness for C4 at the boundary inputs 0, 50 and 51. -/
theorem C4_route_total_witness :
    route_by_volume 51 = .batch_process ∧ route_by_volume 50 = .normal_process ∧
    route_by_volume 0 = .idle :=
  ⟨(C4_route_total 51).1 (by decide),
   ((C4_route_total 50).2.1 (by decide) (by decide)),
   ((C4_route_total 0).2.2.1 rfl)⟩

/-- C5: with `failure_threshold = 2`, two consecutive failures open the
circuit; while OPEN and within the recovery timeout every call (failing or
succeeding alike) is rejected without invoking the wrapped function and leaves
the breaker untouched; strictly after the timeout a call is let through and the
breaker is HALF_OPEN; there two consecutive successes close it again, and a
failure (on the first trial call or after one success) reopens it. -/
theorem C5_circuit_breaker_scenario (rt t1 t2 t3 t4 t5 t6 : Nat)
    (h3 : t3 ≤ t2 + rt) (h4 : t2 + rt < t4) :
    protectedCall (mkBreaker 2 rt) t1 false =
      (.raised, true, ⟨2, rt, "closed", 1, 0, some t1⟩) ∧
    protectedCall ⟨2, rt, "closed", 1, 0, some t1⟩ t2 false =
      (.raised, true, ⟨2, rt, "open", 2, 0, some t2⟩) ∧
    protectedCall ⟨2, rt, "open", 2, 0, some t2⟩ t3 false =
      (.rejected, false, ⟨2, rt, "open", 2, 0, some t2⟩) ∧
    protectedCall ⟨2, rt, "open", 2, 0, some t2⟩ t3 true =
      (.rejected, false, ⟨2, rt, "open", 2, 0, some t2⟩) ∧
    protectedCall ⟨2, rt, "open", 2, 0, some t2⟩ t4 true =
      (.ok, true, ⟨2, rt, "half_open", 2, 1, some t2⟩) ∧
    protectedCall ⟨2, rt, "open", 2, 0, some t2⟩ t4 false =
      (.raised, true, ⟨2, rt, "open", 3, 0, some t4⟩) ∧
    protectedCall ⟨2, rt, "half_open", 2, 1, some t2⟩ t5 true =
      (.ok, true, ⟨2, rt, "closed", 0, 0, some t2⟩) ∧
    protectedCall ⟨2, rt, "half_open", 2, 1, some t2⟩ t6 false =
      (.raised, true, ⟨2, rt, "open", 3, 0, some t6⟩) := by
  have hno : ¬ (rt < t3 - t2) := by omega
  have hyes : rt < t4 - t2 := by omega
  refine ⟨?_, ?_, ?_, ?_, ?_, ?_, ?_, ?_⟩
  · simp [protectedCall, shouldAllowRequest, onFailure, mkBreaker]
  · simp [protectedCall, shouldAllowRequest, onFailure]
  · simp [protectedCall, shouldAllowRequest, hno]
  · simp [protectedCall, shouldAllowRequest, hno]
  · simp [protectedCall, shouldAllowRequest, hyes, onSuccess]
  · simp [protectedCall, shouldAllowRequest, hyes, onFailure]
  · simp [protectedCall, shouldAllowRequest, onSuccess]
  · simp [protectedCall, shouldAllowRequest, onFailure]

/-- Witness for C5 at `rt = 60`, failures at 0 and 10, a rejected call at 70
(timeout not yet exceeded) and the trial call at 71. -/
theorem C5_circuit_breaker_scenario_witness :
    (70 ≤ 10 + 60 ∧ 10 + 60 < 71) ∧
    (protectedCall (mkBreaker 2 60) 0 false =
      (.raised, true, ⟨2, 60, "closed", 1, 0, some 0⟩) ∧
    protectedCall ⟨2, 60, "closed", 1, 0, some 0⟩ 10 false =
      (.raised, true, ⟨2, 60, "open", 2, 0, some 10⟩) ∧
    protectedCall ⟨2, 60, "open", 2, 0, some 10⟩ 70 false =
      (.rejected, false, ⟨2, 60, "open", 2, 0, some 10⟩) ∧
    protectedCall ⟨2, 60, "open", 2, 0, some 10⟩ 70 true =
      (.rejected, false, ⟨2, 60, "open", 2, 0, some 10⟩) ∧
    protectedCall ⟨2, 60, "open", 2, 0, some 10⟩ 71 true =
      (.ok, true, ⟨2, 60, "half_open", 2, 1, some 10⟩) ∧
    protectedCall ⟨2, 60, "open", 2, 0, some 10⟩ 71 false =
      (.raised, true, ⟨2, 60, "open", 3, 0, some 71⟩) ∧
    protectedCall ⟨2, 60, "half_open", 2, 1, some 10⟩ 80 true =
      (.ok, true, ⟨2, 60, "closed", 0, 0, some 10⟩) ∧
    protectedCall ⟨2, 60, "half_open", 2, 1, some 10⟩ 80 false =
      (.raised, true, ⟨2, 60, "open", 3, 0, some 80⟩)) :=
  ⟨⟨by decide, by decide⟩,
   C5_circuit_breaker_scenario 60 0 10 70 71 80 80 (by decide) (by decide)⟩

/-- While CLOSED and below the threshold, a run of calls keeps the breaker
CLOSED and its failure count equals the number of failures seen, regardless of
how successes and failures interleave. -/
theorem runCalls_closed (evs : List (Nat × Bool)) (cb : Breaker)
    (hst : cb.state = "closed")
    (hlt : cb.failure_count + countFails evs < cb.failure_threshold) :
    (runCalls cb evs).state = "closed" ∧
    (runCalls cb evs).failure_count = cb.failure_count + countFails evs ∧
    (runCalls cb evs).failure_threshold = cb.failure_threshold := by
  induction evs generalizing cb with
  | nil => simp [runCalls, countFails, hst]
  | cons e es ih =>
      rcases e with ⟨t, s⟩
      cases s with
      | true =>
          have hstep : protectedCall cb t true = (.ok, true, cb) := by
            simp [protectedCall, shouldAllowRequest, onSuccess, hst]
          have hcf : countFails ((t, true) :: es) = countFails es := by
            simp [countFails]
          rw [hcf] at hlt
          have := ih cb hst hlt
          simpa [runCalls, hstep, hcf] using this
      | false =>
          have hcf : countFails ((t, false) :: es) = countFails es + 1 := by
            simp [countFails]
          rw [hcf] at hlt
          have hsub : ¬ (cb.failure_count + 1 ≥ cb.failure_threshold) := by omega
          have hstep : protectedCall cb t false =
              (.raised, true,
                ⟨cb.failure_threshold, cb.recovery_timeout, cb.state,
                  cb.failure_count + 1, 0, some t⟩) := by
            simp [protectedCall, shouldAllowRequest, onFailure, hst, hsub]
          obtain ⟨ih1, ih2, ih3⟩ := ih ⟨cb.failure_threshold, cb.recovery_timeout, cb.state,
            cb.failure_count + 1, 0, some t⟩ hst (by simp; omega)
          simp only [runCalls, hstep, hcf]
          refine ⟨ih1, ?_, ih3⟩
          rw [ih2]
          show cb.failure_count + 1 + countFails es = cb.failure_count + (countFails es + 1)
          omega

/-- Splitting a run of calls. -/
theorem runCalls_append (cb : Breaker) (l1 l2 : List (Nat × Bool)) :
    runCalls cb (l1 ++ l2) = runCalls (runCalls cb l1) l2 := by
  induction l1 generalizing cb with
  | nil => rfl
  | cons e es ih => simp [runCalls, ih]

/-- C10: a successful call in the CLOSED state leaves the breaker completely
unchanged (counters reset only in HALF_OPEN), so from a fresh breaker the
circuit stays CLOSED while the cumulative number of failures is below the
threshold — successes in between notwithstanding, with no time window — and
opens on the call that brings the cumulative count up to the threshold. -/
theorem C10_closed_failure_accumulation :
    (∀ (cb : Breaker) (t : Nat), cb.state = "closed" →
        protectedCall cb t true = (.ok, true, cb)) ∧
    (∀ (ft rt : Nat) (evs : List (Nat × Bool)), countFails evs < ft →
        (runCalls (mkBreaker ft rt) evs).state = "closed" ∧
        (runCalls (mkBreaker ft rt) evs).failure_count = countFails evs) ∧
    (∀ (ft rt t : Nat) (evs : List (Nat × Bool)), countFails evs + 1 = ft →
        (runCalls (mkBreaker ft rt) (evs ++ [(t, false)])).state = "open") := by
  refine ⟨?_, ?_, ?_⟩
  · intro cb t hst
    simp [protectedCall, shouldAllowRequest, onSuccess, hst]
  · intro ft rt evs hlt
    have := runCalls_closed evs (mkBreaker ft rt) rfl (by simpa [mkBreaker] using hlt)
    exact ⟨this.1, by simpa [mkBreaker] using this.2.1⟩
  · intro ft rt t evs hft
    have hrun := runCalls_closed evs (mkBreaker ft rt) rfl
      (by simp [mkBreaker]; omega)
    rw [runCalls_append]
    set cbE := runCalls (mkBreaker ft rt) evs with hcbE
    have hfc : cbE.failure_count = countFails evs := by
      simpa [mkBreaker] using hrun.2.1
    have hthr : cbE.failure_threshold = ft := by
      simpa [mkBreaker] using hrun.2.2
    have hopen : cbE.failure_count + 1 ≥ cbE.failure_threshold := by omega
    have hstep : protectedCall cbE t false =
        (.raised, true, { cbE with failure_count := cbE.failure_count + 1,
                                   last_failure_time := some t,
                                   success_count := 0, state := "open" }) := by
      simp [protectedCall, shouldAllowRequest, onFailure, hrun.1, hopen]
    simp [runCalls, hstep]

/-- C6 counterexample: the `log` branch fetches the session status but never
checks it — on `dbC6`, whose only session is already `completed`, a LogStep
still reports success and appends a step row, instead of failing with the
SessionError signal and appending nothing. -/
theorem C6_log_after_complete_cex :
    dbC6.sessions = [⟨"r1", "d1", "completed", some 1, some "verified"⟩] ∧
    (logAction dbC6 "r1" "d1" "https://maker/p" (some "manufacturer")
        (some ["name"]) (some "verified") none).1 = .logged ∧
    (logAction dbC6 "r1" "d1" "https://maker/p" (some "manufacturer")
        (some ["name"]) (some "verified") none).2.steps.length =
      dbC6.steps.length + 1 := by
  refine ⟨rfl, ?_, ?_⟩ <;> rfl

/-- C6 (amended): a LogStep on an existing session appends its step row
whatever the session status — `completed` included — and never reports a
session error; the session table is left unchanged (a session row is created
only when the id is new). -/
theorem C6_log_appends_amended (db : ResearchLog) (rid did url : String)
    (st : Option String) (df : Option (List String)) (conf : Option String)
    (nts : Option String) (hrid : rid ≠ "") (hdid : did ≠ "") (hurl : url ≠ "")
    (hsess : (db.sessions.find? (fun s => s.research_id = rid)).isSome) :
    (logAction db rid did url st df conf nts).1 = .logged ∧
    (logAction db rid did url st df conf nts).2.sessions = db.sessions ∧
    (logAction db rid did url st df conf nts).2.steps =
      db.steps ++ [⟨rid, did, url,
        (match st with | some s => if s = "" then "other" else s | none => "other"),
        (match df with | some l => if l = [] then none else some l | none => none),
        (match conf with | some c => if c = "" then "uncertain" else c | none => "uncertain"),
        nts⟩] := by
  refine ⟨?_, ?_, ?_⟩ <;> simp [logAction, hrid, hdid, hurl, hsess]

/-- Witness for the amended C6 on the completed-session log `dbC6`. -/
theorem C6_log_appends_amended_witness :
    ("r1" ≠ "" ∧ "d1" ≠ "" ∧ "https://shop/p" ≠ "" ∧
      (dbC6.sessions.find? (fun s => s.research_id = "r1")).isSome) ∧
    ((logAction dbC6 "r1" "d1" "https://shop/p" none (some []) none none).1 = .logged ∧
    (logAction dbC6 "r1" "d1" "https://shop/p" none (some []) none none).2.sessions =
      dbC6.sessions ∧
    (logAction dbC6 "r1" "d1" "https://shop/p" none (some []) none none).2.steps =
      dbC6.steps ++ [⟨"r1", "d1", "https://shop/p", "other", none, "uncertain", none⟩]) :=
  ⟨⟨by decide, by decide, by decide, by decide⟩,
   C6_log_appends_amended dbC6 "r1" "d1" "https://shop/p" none (some []) none none
     (by decide) (by decide) (by decide) (by decide)⟩

/-- Counting, over a duplicate-free list, the elements present in another list
computes the cardinality of the intersection of the two element sets. -/
theorem length_filter_mem_eq_card_inter (l U : List String) (hnd : l.Nodup) :
    (l.filter (fun f => f ∈ U)).length = (l.toFinset ∩ U.toFinset).card := by
  induction l with
  | nil => simp
  | cons a as ih =>
      rw [List.nodup_cons] at hnd
      obtain ⟨ha, hnd'⟩ := hnd
      rw [List.filter_cons, List.toFinset_cons]
      by_cases hmem : a ∈ U
      · rw [if_pos (by simpa using hmem),
          Finset.insert_inter_of_mem (List.mem_toFinset.mpr hmem),
          Finset.card_insert_of_not_mem
            (fun hc => ha (List.mem_toFinset.mp (Finset.mem_inter.mp hc).1))]
        simp [ih hnd']
      · rw [if_neg (by simpa using hmem),
          Finset.insert_inter_of_not_mem (fun hc => hmem (List.mem_toFinset.mp hc))]
        exact ih hnd'

/-- No confidence tier exceeds `verified`. -/
theorem confLevel_le_three (c : String) : confLevel c ≤ 3 := by
  unfold confLevel
  split <;> omega

/-- Valid confidence strings are one of the four tiers. -/
theorem conf_cases (c : String)
    (h : c ∈ ["verified", "corroborated", "reported", "uncertain"]) :
    c = "verified" ∨ c = "corroborated" ∨ c = "reported" ∨ c = "uncertain" := by
  simpa using h

/-- C3: on a session with at least one logged step, `complete` sets the
completeness score to |union of fieldsFound ∩ REQUIRED_FIELDS| / 7 for the
fixed seven-element required set, sets the overall confidence to the highest
tier observed across the steps (verified > corroborated > reported >
uncertain), and marks the session completed with both values persisted; with
no logged steps it fails with the not-found error and changes nothing. -/
theorem C3_complete_spec (db : ResearchLog) (rid : String) (hrid : rid ≠ "")
    (hvalid : ∀ s ∈ db.steps, s.research_id = rid →
        s.confidence ∈ ["verified", "corroborated", "reported", "uncertain"]) :
    (db.steps.filter (fun s => s.research_id = rid) = [] →
        completeAction db rid = (.noSteps, db)) ∧
    (db.steps.filter (fun s => s.research_id = rid) ≠ [] →
      ∃ score conf,
        completeAction db rid =
          (.completed score conf,
            ⟨db.sessions.map (fun s => if s.research_id = rid then
                ⟨s.research_id, s.discovery_id, "completed", some score, some conf⟩
              else s), db.steps⟩) ∧
        score = ((required_fields.toFinset ∩
            (unionFields (db.steps.filter (fun s => s.research_id = rid))).toFinset).card : ℚ) /
            (required_fields.toFinset.card : ℚ) ∧
        required_fields.toFinset.card = 7 ∧
        (∃ s ∈ db.steps.filter (fun s => s.research_id = rid), s.confidence = conf) ∧
        (∀ s ∈ db.steps.filter (fun s => s.research_id = rid),
            confLevel s.confidence ≤ confLevel conf)) := by
  constructor
  · intro hempty
    simp [completeAction, hrid, hempty]
  · intro hne
    have hvalid' : ∀ s ∈ db.steps.filter (fun s => s.research_id = rid),
        s.confidence ∈ ["verified", "corroborated", "reported", "uncertain"] := by
      intro s hs
      have hm := List.mem_filter.mp hs
      exact hvalid s hm.1 (by simpa using hm.2)
    refine ⟨((required_fields.filter (fun f =>
        f ∈ unionFields (db.steps.filter (fun s => s.research_id = rid)))).length : ℚ) /
        (required_fields.length : ℚ),
      (if "verified" ∈ (db.steps.filter (fun s => s.research_id = rid)).map
          (fun s => s.confidence) then "verified"
        else if "corroborated" ∈ (db.steps.filter (fun s => s.research_id = rid)).map
          (fun s => s.confidence) then "corroborated"
        else if "reported" ∈ (db.steps.filter (fun s => s.research_id = rid)).map
          (fun s => s.confidence) then "reported"
        else "uncertain"), ?_, ?_, by decide, ?_⟩
    · simp only [completeAction, if_neg (by simpa using hrid), if_neg hne]
    · have hnd : required_fields.Nodup := by decide
      have hnum := length_filter_mem_eq_card_inter required_fields
        (unionFields (db.steps.filter (fun s => s.research_id = rid))) hnd
      rw [hnum]
      have hden : required_fields.length = required_fields.toFinset.card := by decide
      rw [hden]
    · set stepsFor := db.steps.filter (fun s => s.research_id = rid) with hsf
      set confs := stepsFor.map (fun s => s.confidence) with hconfs
      by_cases hv : "verified" ∈ confs
      · simp only [if_pos hv]
        obtain ⟨s, hs, hcs⟩ := List.mem_map.mp hv
        refine ⟨⟨s, hs, hcs⟩, fun s2 _ => ?_⟩
        have h3 : confLevel "verified" = 3 := rfl
        rw [h3]
        exact confLevel_le_three s2.confidence
      · simp only [if_neg hv]
        by_cases hc : "corroborated" ∈ confs
        · simp only [if_pos hc]
          obtain ⟨s, hs, hcs⟩ := List.mem_map.mp hc
          refine ⟨⟨s, hs, hcs⟩, fun s2 hs2 => ?_⟩
          rcases conf_cases s2.confidence (hvalid' s2 hs2) with h | h | h | h
          · exact absurd (h ▸ List.mem_map_of_mem _ hs2) hv
          all_goals rw [h]
          all_goals decide
        · simp only [if_neg hc]
          by_cases hr : "reported" ∈ confs
          · simp only [if_pos hr]
            obtain ⟨s, hs, hcs⟩ := List.mem_map.mp hr
            refine ⟨⟨s, hs, hcs⟩, fun s2 hs2 => ?_⟩
            rcases conf_cases s2.confidence (hvalid' s2 hs2) with h | h | h | h
            · exact absurd (h ▸ List.mem_map_of_mem _ hs2) hv
            · exact absurd (h ▸ List.mem_map_of_mem _ hs2) hc
            all_goals rw [h]
            all_goals decide
          · simp only [if_neg hr]
            have hall : ∀ s2 ∈ stepsFor, s2.confidence = "uncertain" := by
              intro s2 hs2
              rcases conf_cases s2.confidence (hvalid' s2 hs2) with h | h | h | h
              · exact absurd (h ▸ List.mem_map_of_mem _ hs2) hv
              · exact absurd (h ▸ List.mem_map_of_mem _ hs2) hc
              · exact absurd (h ▸ List.mem_map_of_mem _ hs2) hr
              · exact h
            obtain ⟨s0, hs0⟩ : ∃ s0, s0 ∈ stepsFor := by
              cases hsFe : stepsFor with
              | nil => exact absurd hsFe hne
              | cons a as => exact ⟨a, hsFe ▸ List.mem_cons_self a as⟩
            refine ⟨⟨s0, hs0, hall s0 hs0⟩, fun s2 hs2 => ?_⟩
            rw [hall s2 hs2]

/-- Witness for C3 on the concrete log `dbC3`: session `r2` has three of the
seven required fields across its two steps (score 3/7) and best confidence
`verified`. -/
theorem C3_complete_spec_witness :
    ("r2" ≠ "" ∧
      (∀ s ∈ dbC3.steps, s.research_id = "r2" →
        s.confidence ∈ ["verified", "corroborated", "reported", "uncertain"]) ∧
      dbC3.steps.filter (fun s => s.research_id = "r2") ≠ []) ∧
    ((dbC3.steps.filter (fun s => s.research_id = "r2") = [] →
        completeAction dbC3 "r2" = (.noSteps, dbC3)) ∧
    (dbC3.steps.filter (fun s => s.research_id = "r2") ≠ [] →
      ∃ score conf,
        completeAction dbC3 "r2" =
          (.completed score conf,
            ⟨dbC3.sessions.map (fun s => if s.research_id = "r2" then
                ⟨s.research_id, s.discovery_id, "completed", some score, some conf⟩
              else s), dbC3.steps⟩) ∧
        score = ((required_fields.toFinset ∩
            (unionFields (dbC3.steps.filter (fun s => s.research_id = "r2"))).toFinset).card : ℚ) /
            (required_fields.toFinset.card : ℚ) ∧
        required_fields.toFinset.card = 7 ∧
        (∃ s ∈ dbC3.steps.filter (fun s => s.research_id = "r2"), s.confidence = conf) ∧
        (∀ s ∈ dbC3.steps.filter (fun s => s.research_id = "r2"),
            confLevel s.confidence ≤ confLevel conf))) :=
  ⟨⟨by decide, by decide, by decide⟩,
   C3_complete_spec dbC3 "r2" (by decide) (by decide)⟩

/-- Generic frame lemma: a conditional rewrite map is the identity on a list
none of whose elements satisfy the condition. -/
theorem map_ite_of_none {α : Type} (f : α → α) (p : α → Prop) [DecidablePred p]
    (l : List α) (h : ∀ x ∈ l, ¬ p x) :
    l.map (fun x => if p x then f x else x) = l := by
  induction l with
  | nil => rfl
  | cons a as ih =>
      rw [List.map_cons, if_neg (h a (List.mem_cons_self a as)),
        ih (fun x hx => h x (List.mem_cons_of_mem _ hx))]

/-- C7 counterexample: `COALESCE(?, source_type)` puts the call argument
first, so re-registering `https://u` — stored with the non-empty kind
`youtube` — with kind `blog` overwrites the stored kind (while `scan_count`
and `items_discovered` do accumulate as claimed). -/
theorem C7_register_kind_cex :
    dbC7 = [⟨"https://u", some "youtube", 0, 5, 0, 1, "completed"⟩] ∧
    addAction dbC7 "https://u" (some "blog") (some 3) 7 =
      (.updated 2, [⟨"https://u", some "blog", 0, 8, 7, 2, "completed"⟩]) := by
  refine ⟨rfl, ?_⟩
  rfl

/-- C7 (amended): registering a known URL updates the single row in place —
`scan_count + 1`, `items_discovered` accumulated, `last_scanned` restamped —
and the stored kind is kept only when the call passes no kind; a non-none kind
argument replaces the stored kind even if it was previously set. -/
theorem C7_register_known_amended (db : List SourceRow) (url : String)
    (st : Option String) (items : Option Int) (now : Nat) (r : SourceRow)
    (hwf : registryWf db) (hurl : url ≠ "")
    (hfound : db.find? (fun x => x.url = url) = some r) :
    ∃ l1 l2, db = l1 ++ r :: l2 ∧
      addAction db url st items now =
        (.updated (r.scan_count + 1),
          l1 ++ ⟨r.url, (match st with | some s => some s | none => r.source_type),
            r.visited_at, r.items_discovered + items.getD 0, now, r.scan_count + 1,
            r.status⟩ :: l2) := by
  have hrurl : r.url = url := by
    have := List.find?_some hfound
    simpa using this
  have hrmem : r ∈ db := List.mem_of_find?_eq_some hfound
  obtain ⟨l1, l2, rfl⟩ := List.append_of_mem hrmem
  have hids : ((l1 ++ r :: l2).map (fun x => x.url)).Nodup := hwf
  rw [List.map_append, List.map_cons, List.nodup_append] at hids
  obtain ⟨h1, h2, hdisj⟩ := hids
  have hid1 : ∀ x ∈ l1, ¬ x.url = url := by
    intro x hx hcontra
    exact hdisj (List.mem_map_of_mem _ hx) (by simp [hcontra, hrurl])
  have hid2 : ∀ x ∈ l2, ¬ x.url = url := by
    intro x hx hcontra
    exact (List.nodup_cons.mp h2).1 (hrurl ▸ hcontra ▸ List.mem_map_of_mem _ hx)
  refine ⟨l1, l2, rfl, ?_⟩
  simp only [addAction, if_neg (by simpa using hurl), hfound, List.map_append,
    List.map_cons, if_pos hrurl]
  rw [map_ite_of_none _ _ l1 hid1, map_ite_of_none _ _ l2 hid2]

/-- Witness for the amended C7 on `dbC7` with no kind argument: the stored
kind `youtube` survives and the counters accumulate. -/
theorem C7_register_known_amended_witness :
    (registryWf dbC7 ∧ "https://u" ≠ "" ∧
      dbC7.find? (fun x => x.url = "https://u") =
        some ⟨"https://u", some "youtube", 0, 5, 0, 1, "completed"⟩) ∧
    (∃ l1 l2, dbC7 = l1 ++ (⟨"https://u", some "youtube", 0, 5, 0, 1, "completed"⟩ : SourceRow) :: l2 ∧
      addAction dbC7 "https://u" none (some 4) 9 =
        (.updated 2, l1 ++ (⟨"https://u", some "youtube", 0, 9, 9, 2, "completed"⟩ : SourceRow) :: l2)) :=
  ⟨⟨by decide, by decide, by decide⟩,
   C7_register_known_amended dbC7 "https://u" none (some 4) 9
     ⟨"https://u", some "youtube", 0, 5, 0, 1, "completed"⟩
     (by decide) (by decide) (by decide)⟩

/-- C8 counterexample: `batch_curate` has no try/except around its chunk loop.
On twelve items split into batches of sizes 10 and 2, a curator failure on the
first batch propagates out: the run aborts with the error, the second batch is
never processed (only one chunk was invoked), and no per-chunk error list with
the remaining results exists. -/
theorem C8_batch_abort_cex :
    chunksOf 10 itemsC8 = [[0, 1, 2, 3, 4, 5, 6, 7, 8, 9], [10, 11]] ∧
    batch_curate failOnZero itemsC8 = (.error (), [[0, 1, 2, 3, 4, 5, 6, 7, 8, 9]]) := by
  have hch : chunksOf 10 itemsC8 = [[0, 1, 2, 3, 4, 5, 6, 7, 8, 9], [10, 11]] := by
    rw [itemsC8]
    rw [chunksOf.eq_def]
    norm_num
    rw [chunksOf.eq_def]
    norm_num
    rw [chunksOf.eq_def]
  refine ⟨hch, ?_⟩
  rw [batch_curate, hch]
  rfl

/-- C8 (amended): the chunk rounds run sequentially in input order — when
every round succeeds the per-chunk results are collected in input order, but a
raised error in one round propagates immediately: later chunks are not
processed and the whole batch call fails with that error. -/
theorem C8_batch_sequential_amended {α β ε : Type} (f : List α → Except ε β) :
    (∀ cs : List (List α), (∀ c ∈ cs, (f c).isOk = true) →
      ∃ rs : List β, batchRun f cs = (.ok rs, cs) ∧
        List.Forall₂ (fun c r => f c = .ok r) cs rs) ∧
    (∀ (cs1 cs2 : List (List α)) (c : List α) (e : ε),
      (∀ c1 ∈ cs1, (f c1).isOk = true) → f c = .error e →
      batchRun f (cs1 ++ c :: cs2) = (.error e, cs1 ++ [c])) := by
  constructor
  · intro cs hok
    induction cs with
    | nil => exact ⟨[], rfl, List.Forall₂.nil⟩
    | cons c cs ih =>
        have hc := hok c (List.mem_cons_self c cs)
        cases hfc : f c with
        | error e => rw [hfc] at hc; simp [Except.isOk, Except.toBool] at hc
        | ok r =>
            obtain ⟨rs, hrun, hfa⟩ := ih (fun c1 hc1 => hok c1 (List.mem_cons_of_mem _ hc1))
            refine ⟨r :: rs, ?_, List.Forall₂.cons hfc hfa⟩
            simp [batchRun, hfc, hrun]
  · intro cs1 cs2 c e hok hfc
    induction cs1 with
    | nil => simp [batchRun, hfc]
    | cons a as ih =>
        have ha := hok a (List.mem_cons_self a as)
        cases hfa : f a with
        | error e2 => rw [hfa] at ha; simp [Except.isOk, Except.toBool] at ha
        | ok r =>
            have hrec := ih (fun c1 hc1 => hok c1 (List.mem_cons_of_mem _ hc1))
            simp [batchRun, hfa, hrec]

/-- Witness for the amended C8 with the concrete curator `failOnZero`: two
clean chunks succeed in order; a failing chunk after one clean chunk aborts
with only the clean chunk and the failing chunk invoked. -/
theorem C8_batch_sequential_amended_witness :
    ((∀ c ∈ [[1], [2]], (failOnZero c).isOk = true) ∧
      (∀ c1 ∈ [[3]], (failOnZero c1).isOk = true) ∧ failOnZero [0] = .error ()) ∧
    (∃ rs : List (List Nat), batchRun failOnZero [[1], [2]] = (.ok rs, [[1], [2]]) ∧
      List.Forall₂ (fun c r => failOnZero c = .ok r) [[1], [2]] rs) ∧
    batchRun failOnZero ([[3]] ++ [0] :: [[4]]) = (.error (), [[3]] ++ [[0]]) :=
  ⟨⟨by decide, by decide, rfl⟩,
   (C8_batch_sequential_amended failOnZero).1 [[1], [2]] (by decide),
   (C8_batch_sequential_amended failOnZero).2 [[3]] [[4]] [0] () (by decide) rfl⟩

/-- Witness for C10: threshold 2, failures at times 1 and 3 separated by
successes at 0 and 2 — the second failure opens the breaker. -/
theorem C10_closed_failure_accumulation_witness :
    ((mkBreaker 2 60).state = "closed" ∧
      countFails [(0, true), (1, false), (2, true)] < 2 ∧
      countFails [(0, true), (1, false), (2, true)] + 1 = 2) ∧
    protectedCall (mkBreaker 2 60) 5 true = (.ok, true, mkBreaker 2 60) ∧
    (runCalls (mkBreaker 2 60) [(0, true), (1, false), (2, true)]).state = "closed" ∧
    (runCalls (mkBreaker 2 60) [(0, true), (1, false), (2, true)]).failure_count =
      countFails [(0, true), (1, false), (2, true)] ∧
    (runCalls (mkBreaker 2 60) ([(0, true), (1, false), (2, true)] ++ [(3, false)])).state =
      "open" :=
  ⟨⟨rfl, by decide, by decide⟩,
   C10_closed_failure_accumulation.1 (mkBreaker 2 60) 5 rfl,
   (C10_closed_failure_accumulation.2.1 2 60 [(0, true), (1, false), (2, true)] (by decide)).1,
   (C10_closed_failure_accumulation.2.1 2 60 [(0, true), (1, false), (2, true)] (by decide)).2,
   C10_closed_failure_accumulation.2.2 2 60 3 [(0, true), (1, false), (2, true)] (by decide)⟩

end GearCrew
